import Mathlib

/-!
Shallow embedding of `cli/tools/task.rs` (Deno's `deno task` subcommand):
task-source selection between the configuration task map and the package
manifest script map, pre/post hook sequencing, environment construction
(`PATH` prepending), script argument quoting/escaping, and the npm command
table (`resolve_npm_commands`, `NpxCommand`, `NpmPackageBinCommand`).

Rust `String` values are modelled as Lean `String` (with character-level
work on `List Char`); `HashMap`/`IndexMap` as association lists observed
through lookups; `i32` exit codes as `Int`; fallible operations as
`Except String`.  External collaborators (the shell engine, the filesystem,
the process environment, the npm resolver) are oracle parameters bundled in
a `World` value: `executeScript` is a pure function of that world.
-/

namespace DenoTask

/-- A single apostrophe character (used inside diagnostic messages). -/
def quoteCh : Char := '\x27'

/-- A one-character string holding an apostrophe. -/
def quoteStr : String := String.mk [quoteCh]

/-! ## Script templating (`get_script_with_args`, task.rs lines 146-157) -/

/-- Rust `str::replace(target, rep)`: replace every occurrence of the
character `target` by the string `rep`. -/
def replaceChar (target : Char) (rep : List Char) : List Char → List Char
  | [] => []
  | c :: rest =>
    if c = target then rep ++ replaceChar target rep rest
    else c :: replaceChar target rep rest

/-- `a.replace('"', "\\\"").replace('$', "\\$")` from task.rs line 152. -/
def escapeArg (a : List Char) : List Char :=
  replaceChar '$' ['\\', '$'] (replaceChar '"' ['\\', '"'] a)

/-- `format!("\"{}\"", escaped)`: wrap the escaped argument in double
quotes (task.rs line 152). -/
def quoteArg (a : List Char) : List Char :=
  '"' :: (escapeArg a ++ ['"'])

/-- `.collect::<Vec<_>>().join(" ")` over the quoted arguments
(task.rs lines 153-154). -/
def joinQuotedArgs (args : List (List Char)) : List Char :=
  List.intercalate [' '] (args.map quoteArg)

/-- Rust `str::trim` on a character list: drop whitespace from both ends. -/
def trimChars (l : List Char) : List Char :=
  ((l.dropWhile Char.isWhitespace).reverse.dropWhile Char.isWhitespace).reverse

/-- Helper for `escOk`: scanning with `p` as the previous character, every
double quote or dollar sign is immediately preceded by a backslash. -/
def escOkFrom : Char → List Char → Bool
  | _, [] => true
  | p, c :: rest => (!(c == '"' || c == '$') || p == '\\') && escOkFrom c rest

/-- Every double quote or dollar sign in the list is immediately preceded
by a backslash (so none of them reaches the shell engine unescaped). -/
def escOk : List Char → Bool
  | [] => true
  | c :: rest => !(c == '"' || c == '$') && escOkFrom c rest

/-- `get_script_with_args` (task.rs lines 146-157) at the character level:
`format!("{script} {additional_args}")` followed by `.trim()`. -/
def getScriptWithArgsList (script : List Char) (argv : List (List Char)) : List Char :=
  trimChars (script ++ ' ' :: joinQuotedArgs argv)

/-- `get_script_with_args` (task.rs lines 146-157); `argv` is
`options.argv()`, the trailing pass-through CLI arguments. -/
def getScriptWithArgs (script : String) (argv : List String) : String :=
  String.mk (getScriptWithArgsList script.data (argv.map String.data))

/-! ## Environment maps (`collect_env_vars`, `prepend_to_path`,
task.rs lines 168-210) -/

/-- `HashMap<String, String>` / `IndexMap<String, String>` modelled as an
association list; the most recently inserted binding is found first. -/
abbrev EnvMap := List (String × String)

/-- Key lookup in an association-list map (`HashMap::get` /
`IndexMap::get`). -/
def mapGet (m : EnvMap) (k : String) : Option String :=
  (m.find? (fun kv => kv.1 == k)).map (·.2)

/-- `HashMap::insert` (overwriting any previous binding, as observed
through `mapGet`). -/
def envInsert (m : EnvMap) (k v : String) : EnvMap :=
  (k, v) :: m

/-- The platform path-list separator: `;` on Windows, `:` elsewhere
(`if cfg!(windows) { ";" } else { ":" }`, task.rs line 189). -/
def pathListSep (windows : Bool) : String :=
  if windows then ";" else ":"

/-- `prepend_to_path` (task.rs lines 182-196). -/
def prependToPath (windows : Bool) (m : EnvMap) (value : String) : EnvMap :=
  match mapGet m "PATH" with
  | some p =>
    if p = "" then envInsert m "PATH" value
    else envInsert m "PATH" (value ++ pathListSep windows ++ p)
  | none => envInsert m "PATH" value

/-- The ambient process state read by `collect_env_vars`:
`std::env::vars()` and `std::env::current_dir()`. -/
structure Ambient where
  envVars : EnvMap
  currentDir : Option String

/-- `collect_env_vars` (task.rs lines 198-210): start from the process
environment and add `INIT_CWD` when missing and the current directory is
available. -/
def collectEnvVars (amb : Ambient) : EnvMap :=
  if (mapGet amb.envVars "INIT_CWD").isSome then amb.envVars
  else
    match amb.currentDir with
    | some cwd => envInsert amb.envVars "INIT_CWD" cwd
    | none => amb.envVars

/-- `collect_env_vars_with_node_modules_dir` (task.rs lines 168-180):
prepend `<node_modules>/.bin` to `PATH`. -/
def collectEnvVarsWithNodeModulesDir (windows : Bool) (amb : Ambient)
    (nodeModulesDirPath : String) : EnvMap :=
  prependToPath windows (collectEnvVars amb)
    (nodeModulesDirPath ++ (if windows then "\\" else "/") ++ ".bin")

/-! ## npm command resolution (`resolve_npm_commands`, `NpxCommand`,
`NpmPackageBinCommand`, task.rs lines 243-321) -/

/-- `deno_semver::package::PackageNv`: a package name plus version; its
`Display` form is `name@version`. -/
structure PackageNv where
  name : String
  version : String
deriving DecidableEq

/-- The `Display` rendering of a `PackageNv` (`format!("{}", nv)` gives
`name@version`). -/
def PackageNv.display (nv : PackageNv) : String :=
  nv.name ++ "@" ++ nv.version

/-- A top-level npm package id from the resolver snapshot; only its `nv`
field is observed by this module. -/
structure NpmPackageId where
  nv : PackageNv
deriving DecidableEq

/-- The shell commands this module registers: the catch-all `NpxCommand`
and per-binary `NpmPackageBinCommand { name, npm_package }` values. -/
inductive NpmCmd where
  | npx
  | pkgBin (name : String) (npmPackage : PackageNv)
deriving DecidableEq

/-- `HashMap<String, Rc<dyn ShellCommand>>` as an association list; a
later `insert` shadows an earlier binding. -/
abbrev CmdTable := List (String × NpmCmd)

/-- `HashMap::get` on the command table. -/
def tableLookup (t : CmdTable) (k : String) : Option NpmCmd :=
  (t.find? (fun kv => kv.1 == k)).map (·.2)

/-- `HashMap::insert` on the command table: the new binding shadows any
earlier one with the same key. -/
def tableInsert (t : CmdTable) (k : String) (v : NpmCmd) : CmdTable :=
  (k, v) :: t

/-- `Except.isOk`-style discriminator used in statements. -/
def isErr : Except String α → Bool
  | .error _ => true
  | .ok _ => false

/-- The managed npm resolver oracle (`ManagedCliNpmResolver`): its
snapshot of top-level packages, folder lookup, and the awaited
`ensure_top_level_package_json_install` / `resolve_pending` pair. -/
structure ManagedResolver where
  snapshot : List NpmPackageId
  resolvePkgFolder : NpmPackageId → Except String String
  ensureTopLevelInstall : Except String Unit

/-- Register one `NpmPackageBinCommand` per discovered binary name of one
package (the inner `for bin_command in bin_commands` loop,
task.rs lines 307-315). -/
def insertBinCommands (pkg : NpmPackageId) (bins : List String) (acc : CmdTable) : CmdTable :=
  bins.foldl (fun acc bin => tableInsert acc bin (.pkgBin bin pkg.nv)) acc

/-- The `for id in snapshot.top_level_packages()` loop of
`resolve_npm_commands` (task.rs lines 303-316); `bc` is
`node_resolver.resolve_binary_commands`. -/
def resolveLoop (m : ManagedResolver) (bc : String → Except String (List String)) :
    List NpmPackageId → CmdTable → Except String CmdTable
  | [], acc => .ok acc
  | pkg :: rest, acc => do
    let folder ← m.resolvePkgFolder pkg
    let bins ← bc folder
    resolveLoop m bc rest (insertBinCommands pkg bins acc)

/-- `resolve_npm_commands` (task.rs lines 297-321): build the per-binary
table, then add the catch-all `npx` handler only when no package already
claimed that name. -/
def resolveNpmCommands (m : ManagedResolver)
    (bc : String → Except String (List String)) : Except String CmdTable := do
  let result ← resolveLoop m bc m.snapshot []
  if (tableLookup result "npx").isSome then pure result
  else pure (tableInsert result "npx" .npx)

/-- The binary names one package contributes on the success path (used
only to state theorems about `resolveLoop`). -/
def binsOf (m : ManagedResolver) (bc : String → Except String (List String))
    (pkg : NpmPackageId) : List String :=
  match m.resolvePkgFolder pkg with
  | .ok folder =>
    match bc folder with
    | .ok bins => bins
    | .error _ => []
  | .error _ => []

/-- Whether folder lookup or binary discovery fails for one package. -/
def pkgResolutionFails (m : ManagedResolver)
    (bc : String → Except String (List String)) (pkg : NpmPackageId) : Bool :=
  match m.resolvePkgFolder pkg with
  | .ok folder => isErr (bc folder)
  | .error _ => true

/-- The last package in iteration order exposing binary name `b` (used to
state the last-write-wins property of `resolveLoop`). -/
def lastExposer (m : ManagedResolver) (bc : String → Except String (List String))
    (b : String) : List NpmPackageId → Option NpmPackageId
  | [] => none
  | pkg :: rest =>
    match lastExposer m bc b rest with
    | some p => some p
    | none => if (binsOf m bc pkg).contains b then some pkg else none

/-- Outcome of one `ShellCommand::execute` of the npx catch-all: either
another command is invoked with the remaining arguments, or a diagnostic
line is written to the stderr handle and an exit code produced. -/
inductive NpxOutcome where
  | invoked (cmd : NpmCmd) (args : List String)
  | errored (stderrLine : String) (exitCode : Int)
deriving DecidableEq

/-- `NpxCommand::execute` (task.rs lines 245-268); `resolveCommand` is
`context.state.resolve_command`. -/
def npxExecute (resolveCommand : String → Option NpmCmd) (args : List String) : NpxOutcome :=
  match args with
  | firstArg :: rest =>
    match resolveCommand firstArg with
    | some cmd => .invoked cmd rest
    | none =>
      .errored ("npx: could not resolve command " ++ quoteStr ++ firstArg ++ quoteStr) 1
  | [] => .errored "npx: missing command" 1

/-- `NpmPackageBinCommand::execute` (task.rs lines 276-295): the external
executable invoked (`"deno"`) and the full argument vector handed to it. -/
def npmPackageBinCommandExecute (name : String) (npmPackage : PackageNv)
    (args : List String) : String × List String :=
  ("deno",
    ["run", "-A",
      if npmPackage.name = name then "npm:" ++ npmPackage.display
      else "npm:" ++ npmPackage.display ++ "/" ++ name] ++ args)

/-! ## Task listing (`print_available_tasks`, task.rs lines 212-241) -/

/-- The two stderr lines printed for one listing entry (color wrappers
`colors::cyan` / `colors::italic_gray` are identity on the text). -/
def renderEntries : List (Bool × String × String) → List String
  | [] => []
  | e :: rest =>
    ("- " ++ e.2.1 ++ (if e.1 then "" else " (package.json)")) ::
      ("    " ++ e.2.2) :: renderEntries rest

/-- `print_available_tasks` (task.rs lines 212-241) as the list of lines
written to stderr. -/
def printAvailableTasks (tasksConfig packageJsonScripts : List (String × String)) : List String :=
  let entries : List (Bool × String × String) :=
    tasksConfig.map (fun e => (true, e)) ++
      (packageJsonScripts.filter (fun e => !(mapGet tasksConfig e.1).isSome)).map
        (fun e => (false, e))
  "Available tasks:" ::
    (renderEntries entries ++
      if entries.isEmpty then ["  No tasks found in configuration file"] else [])

/-- Spec-side rendering of the listing, following the specification text:
task-map entries first in insertion order, then manifest entries whose
names are not already in the task map annotated as manifest-sourced, or a
none-found message when both maps are empty. -/
def renderConfigEntries : List (String × String) → List String
  | [] => []
  | (k, v) :: rest => ("- " ++ k) :: ("    " ++ v) :: renderConfigEntries rest

/-- Spec-side rendering of the manifest-sourced part of the listing. -/
def renderManifestEntries : List (String × String) → List String
  | [] => []
  | (k, v) :: rest =>
    ("- " ++ k ++ " (package.json)") :: ("    " ++ v) :: renderManifestEntries rest

/-- Spec-side listing, assembled exactly as the specification words it. -/
def taskListingSpec (tasksConfig packageJsonScripts : List (String × String)) : List String :=
  "Available tasks:" ::
    (if tasksConfig.isEmpty && packageJsonScripts.isEmpty then
      ["  No tasks found in configuration file"]
    else
      renderConfigEntries tasksConfig ++
        renderManifestEntries
          (packageJsonScripts.filter (fun e => !(mapGet tasksConfig e.1).isSome)))

/-! ## The execution driver (`execute_script`, task.rs lines 27-144) -/

/-- `TaskFlags`: the optional working-directory override and the optional
task name. -/
structure TaskFlags where
  cwd : Option String
  task : Option String

/-- The fields of the loaded `package.json` this module reads. -/
structure PackageJson where
  scripts : Option (List (String × String))
  path : String

/-- The configuration file specifier (`maybe_config_file_specifier`). -/
structure ConfigFile where
  scheme : String
  path : String

/-- `mapError`-with-context on an `Except`
(`.with_context(|| format!("Error parsing script ..."))`). -/
def ctxMapError (e : Except String α) (f : String → String) : Except String α :=
  match e with
  | .ok a => .ok a
  | .error err => .error (f err)

/-- All collaborator oracles and loaded inputs of one `execute_script`
call.  `shellParse` / `shellExecute` are `deno_task_shell::parser::parse`
and `deno_task_shell::execute` (the latter as a function of the script
text, environment, working directory and command table, returning the
`i32` exit code); `canonicalize` is `util::fs::canonicalize_path`;
`parentOf` is `Path::parent`. -/
structure World where
  windows : Bool
  argv : List String
  tasksConfig : List (String × String)
  maybePackageJson : Option PackageJson
  maybeConfigFile : Option ConfigFile
  parentOf : String → String
  canonicalize : String → Except String String
  ambient : Ambient
  shellParse : String → Except String Unit
  shellExecute : String → EnvMap → String → CmdTable → Int
  managedNpmResolver : Option ManagedResolver
  resolveBinaryCommands : String → Except String (List String)
  rootNodeModulesPath : Option String

/-- One call of `deno_task_shell::execute`: the step (task or hook) name,
the finalized script text, the environment map and command table passed
in, and the exit code that came back. -/
structure Step where
  name : String
  script : String
  envVars : EnvMap
  commands : CmdTable
  exitCode : Int
deriving DecidableEq

/-- The observable outcome of one `execute_script` call that did not
abort with an error: the returned exit code, the sequence of shell
executions, every line written with `eprintln!`, and how many times the
command table and environment map were constructed (task.rs lines
118-127 run once per executed hook step). -/
structure RunOutcome where
  exitCode : Int
  steps : List Step
  stderrLines : List String
  buildCount : Nat
deriving DecidableEq

/-- The environment map built for a manifest hook step
(task.rs lines 124-127). -/
def manifestTaskEnvVars (w : World) : EnvMap :=
  match w.rootNodeModulesPath with
  | some dirPath => collectEnvVarsWithNodeModulesDir w.windows w.ambient dirPath
  | none => collectEnvVars w.ambient

/-- The command table built for a manifest hook step
(task.rs lines 118-123): `resolve_npm_commands` under a managed resolver,
`Default::default()` otherwise. -/
def manifestTaskCommands (w : World) : Except String CmdTable :=
  match w.managedNpmResolver with
  | some m => resolveNpmCommands m w.resolveBinaryCommands
  | none => .ok []

/-- The `for task_name in task_names` hook loop of the manifest branch
(task.rs lines 112-136), returning the final exit code, the executed
steps, and the number of table/environment constructions. -/
def runHooks (w : World) (packageJsonScripts : List (String × String)) (cwd : String) :
    List String → Except String (Int × List Step × Nat)
  | [] => .ok (0, [], 0)
  | taskName :: rest =>
    match mapGet packageJsonScripts taskName with
    | none => runHooks w packageJsonScripts cwd rest
    | some rawScript => do
      let script := getScriptWithArgs rawScript w.argv
      let _ ← ctxMapError (w.shellParse script)
        (fun e => "Error parsing script " ++ quoteStr ++ taskName ++ quoteStr ++ ". " ++ e)
      let npxCommands ← manifestTaskCommands w
      let envVars := manifestTaskEnvVars w
      let exitCode := w.shellExecute script envVars cwd npxCommands
      let step : Step := ⟨taskName, script, envVars, npxCommands, exitCode⟩
      if exitCode > 0 then
        .ok (exitCode, [step], 1)
      else do
        let (code, steps, builds) ← runHooks w packageJsonScripts cwd rest
        .ok (code, step :: steps, builds + 1)

/-- `execute_script` (task.rs lines 27-144).  Dependency-requirement
warnings and `output_task` go through `log::info!`, not `eprintln!`, so
they do not appear in `stderrLines`; `unwrap` panics on states the code
has already excluded are mapped to distinguished errors. -/
def executeScript (w : World) (taskFlags : TaskFlags) : Except String RunOutcome :=
  let tasksConfig := w.tasksConfig
  let packageJsonScripts := (w.maybePackageJson.bind (·.scripts)).getD []
  match taskFlags.task with
  | none => .ok ⟨1, [], printAvailableTasks tasksConfig packageJsonScripts, 0⟩
  | some taskName =>
    match mapGet tasksConfig taskName with
    | some rawScript =>
      match w.maybeConfigFile with
      | none => .error "panic: missing config file specifier"
      | some configFile =>
        if configFile.scheme = "file" then do
          let cwd ← match taskFlags.cwd with
            | some path => w.canonicalize path
            | none => pure (w.parentOf configFile.path)
          let script := getScriptWithArgs rawScript w.argv
          let _ ← ctxMapError (w.shellParse script)
            (fun e => "Error parsing script " ++ quoteStr ++ taskName ++ quoteStr ++ ". " ++ e)
          let envVars := collectEnvVars w.ambient
          let exitCode := w.shellExecute script envVars cwd []
          .ok ⟨exitCode, [⟨taskName, script, envVars, [], exitCode⟩], [], 0⟩
        else .error "Only local configuration files are supported"
    | none =>
      if (mapGet packageJsonScripts taskName).isSome then
        match w.maybePackageJson with
        | none => .error "panic: missing package.json"
        | some packageJson => do
          let _ ← match w.managedNpmResolver with
            | some m => m.ensureTopLevelInstall
            | none => pure ()
          let cwd ← match taskFlags.cwd with
            | some path => w.canonicalize path
            | none => pure (w.parentOf packageJson.path)
          let (exitCode, steps, builds) ← runHooks w packageJsonScripts cwd
            ["pre" ++ taskName, taskName, "post" ++ taskName]
          .ok ⟨exitCode, steps, [], builds⟩
      else
        .ok ⟨1, [],
          ("Task not found: " ++ taskName) ::
            printAvailableTasks tasksConfig packageJsonScripts, 0⟩

/-! ## Concrete witness inputs -/

/-- Concrete resolver: two packages, both exposing the binary `tool`. -/
def mW1 : ManagedResolver :=
  ⟨[⟨⟨"a", "1.0.0"⟩⟩, ⟨⟨"b", "2.0.0"⟩⟩], fun q => .ok q.nv.name, .ok ()⟩

/-- Concrete binary discovery: every package folder exposes `tool`. -/
def bcW1 : String → Except String (List String) := fun _ => .ok ["tool"]

/-- Concrete resolver whose binary discovery fails. -/
def mW2 : ManagedResolver := ⟨[⟨⟨"a", "1.0.0"⟩⟩], fun q => .ok q.nv.name, .ok ()⟩

/-- Failing binary discovery for `mW2`. -/
def bcW2 : String → Except String (List String) := fun _ => .error "discovery failed"

/-- Concrete command resolution for the npx witness. -/
def rW0 : String → Option NpmCmd :=
  fun s => if s = "tool" then some (.pkgBin "tool" ⟨"p", "1.0.0"⟩) else none

/-- Concrete empty resolver for the npx witness. -/
def mW0 : ManagedResolver := ⟨[], fun _ => .ok "", .ok ()⟩

/-- Concrete binary discovery for the npx witness. -/
def bcW0 : String → Except String (List String) := fun _ => .ok []

/-- Discriminate an `Except` into an `Option` (used to state closed
counterexamples). -/
def okValue : Except String α → Option α
  | .ok a => some a
  | .error _ => none

/-- A trivial ambient state: empty process environment, no current
directory. -/
def trivAmbient : Ambient := ⟨[], none⟩

/-- Concrete configuration-sourced world: the task `build` is in the
configuration task map, and a package manifest with installed packages is
also present. -/
def cw1 : World :=
  { windows := false, argv := [],
    tasksConfig := [("build", "echo hi")],
    maybePackageJson := some ⟨some [("build", "x")], "/p/package.json"⟩,
    maybeConfigFile := some ⟨"file", "/c/deno.json"⟩,
    parentOf := fun _ => "/c",
    canonicalize := fun p => .ok p,
    ambient := trivAmbient,
    shellParse := fun _ => .ok (),
    shellExecute := fun _ _ _ _ => 0,
    managedNpmResolver := some mW1,
    resolveBinaryCommands := bcW1,
    rootNodeModulesPath := none }

/-- Task flags selecting the task `build` with no directory override. -/
def tf1 : TaskFlags := ⟨none, some "build"⟩

/-- The outcome of `executeScript cw1 tf1`. -/
def out1 : RunOutcome := ⟨0, [⟨"build", "echo hi", [], [], 0⟩], [], 0⟩

/-- Concrete manifest-sourced world whose `build` script exits with the
negative code `-1` while `prebuild` and `postbuild` exit with `0`. -/
def cw2 : World :=
  { windows := false, argv := [],
    tasksConfig := [],
    maybePackageJson :=
      some ⟨some [("prebuild", "a"), ("build", "b"), ("postbuild", "c")], "/p/package.json"⟩,
    maybeConfigFile := none,
    parentOf := fun _ => "/p",
    canonicalize := fun p => .ok p,
    ambient := trivAmbient,
    shellParse := fun _ => .ok (),
    shellExecute := fun script _ _ _ => if script = "b" then -1 else 0,
    managedNpmResolver := none,
    resolveBinaryCommands := fun _ => .ok [],
    rootNodeModulesPath := none }

/-- Task flags selecting the task `build` with no directory override. -/
def tf2 : TaskFlags := ⟨none, some "build"⟩

/-- Concrete manifest-sourced world with all three hook scripts present
and every script exiting with `0`. -/
def cw3 : World :=
  { windows := false, argv := [],
    tasksConfig := [],
    maybePackageJson :=
      some ⟨some [("prebuild", "a"), ("build", "b"), ("postbuild", "c")], "/p/package.json"⟩,
    maybeConfigFile := none,
    parentOf := fun _ => "/p",
    canonicalize := fun p => .ok p,
    ambient := trivAmbient,
    shellParse := fun _ => .ok (),
    shellExecute := fun _ _ _ _ => 0,
    managedNpmResolver := none,
    resolveBinaryCommands := fun _ => .ok [],
    rootNodeModulesPath := none }

/-- The outcome of `executeScript cw3 tf2`. -/
def out3 : RunOutcome :=
  ⟨0, [⟨"prebuild", "a", [], [], 0⟩, ⟨"build", "b", [], [], 0⟩,
    ⟨"postbuild", "c", [], [], 0⟩], [], 3⟩

/-- Concrete manifest-sourced world whose `build` script exits with the
strictly positive code `2` while `prebuild` and `postbuild` would exit
with `0`. -/
def cw4 : World :=
  { windows := false, argv := [],
    tasksConfig := [],
    maybePackageJson :=
      some ⟨some [("prebuild", "a"), ("build", "b"), ("postbuild", "c")], "/p/package.json"⟩,
    maybeConfigFile := none,
    parentOf := fun _ => "/p",
    canonicalize := fun p => .ok p,
    ambient := trivAmbient,
    shellParse := fun _ => .ok (),
    shellExecute := fun script _ _ _ => if script = "b" then 2 else 0,
    managedNpmResolver := none,
    resolveBinaryCommands := fun _ => .ok [],
    rootNodeModulesPath := none }

/-- The outcome of `executeScript cw4 tf2`: `postbuild` is skipped and
the positive exit code of `build` is terminal. -/
def out4 : RunOutcome :=
  ⟨2, [⟨"prebuild", "a", [], [], 0⟩, ⟨"build", "b", [], [], 2⟩], [], 2⟩

/-- Concrete world for the not-found listing: one configuration task and
one manifest-only script. -/
def cw7 : World :=
  { windows := false, argv := [],
    tasksConfig := [("a", "echo a")],
    maybePackageJson := some ⟨some [("a", "x"), ("b", "y")], "/p/package.json"⟩,
    maybeConfigFile := some ⟨"file", "/c/deno.json"⟩,
    parentOf := fun _ => "/c",
    canonicalize := fun p => .ok p,
    ambient := trivAmbient,
    shellParse := fun _ => .ok (),
    shellExecute := fun _ _ _ _ => 0,
    managedNpmResolver := none,
    resolveBinaryCommands := fun _ => .ok [],
    rootNodeModulesPath := none }

/-- Task flags naming a task found in neither source. -/
def tf7 : TaskFlags := ⟨none, some "zzz"⟩

/-! ## Helper lemmas -/

theorem mapGet_nil (k : String) : mapGet [] k = none := rfl

theorem mapGet_cons (k' v' : String) (rest : EnvMap) (k : String) :
    mapGet ((k', v') :: rest) k = if k' == k then some v' else mapGet rest k := by
  by_cases h : k' == k <;> simp [mapGet, List.find?_cons, h]

theorem mapGet_envInsert_self (m : EnvMap) (k v : String) :
    mapGet (envInsert m k v) k = some v := by
  simp [envInsert, mapGet_cons]

theorem replaceChar_append (t : Char) (rep x y : List Char) :
    replaceChar t rep (x ++ y) = replaceChar t rep x ++ replaceChar t rep y := by
  induction x with
  | nil => simp [replaceChar]
  | cons c cs ih =>
    by_cases h : c = t <;> simp [replaceChar, h, ih]

theorem escapeArg_cons (c : Char) (l : List Char) :
    escapeArg (c :: l) =
      (if c = '"' then ['\\', '"'] else if c = '$' then ['\\', '$'] else [c]) ++ escapeArg l := by
  unfold escapeArg
  by_cases h1 : c = '"'
  · subst h1
    simp [replaceChar, replaceChar_append]
  · by_cases h2 : c = '$'
    · subst h2
      simp [replaceChar, h1]
    · simp [replaceChar, h1, h2]

theorem escOkFrom_escapeArg (l : List Char) : ∀ p, escOkFrom p (escapeArg l) = true := by
  induction l with
  | nil => intro p; rfl
  | cons c cs ih =>
    intro p
    rw [escapeArg_cons]
    by_cases h1 : c = '"'
    · subst h1
      simp [escOkFrom, ih]
    · by_cases h2 : c = '$'
      · subst h2
        simp [escOkFrom, h1, ih]
      · simp [escOkFrom, h1, h2, ih]

theorem escOk_escapeArg (l : List Char) : escOk (escapeArg l) = true := by
  cases l with
  | nil => rfl
  | cons c cs =>
    rw [escapeArg_cons]
    by_cases h1 : c = '"'
    · subst h1
      simp [escOk, escOkFrom, escOkFrom_escapeArg]
    · by_cases h2 : c = '$'
      · subst h2
        simp [escOk, escOkFrom, h1, escOkFrom_escapeArg]
      · simp [escOk, h1, h2, escOkFrom_escapeArg]

theorem dropWhile_append_singleton (p : Char → Bool) (l : List Char) (c : Char)
    (hc : p c = true) :
    (l ++ [c]).dropWhile p =
      if (l.dropWhile p).isEmpty then [] else l.dropWhile p ++ [c] := by
  induction l with
  | nil => simp [List.dropWhile, hc]
  | cons a as ih =>
    by_cases h : p a
    · simpa [List.dropWhile_cons, h] using ih
    · simp [List.dropWhile_cons, h]

theorem trimChars_append_ws (l : List Char) (c : Char) (hc : c.isWhitespace = true) :
    trimChars (l ++ [c]) = trimChars l := by
  unfold trimChars
  rw [dropWhile_append_singleton _ _ _ hc]
  by_cases h : (l.dropWhile Char.isWhitespace).isEmpty
  · rw [List.isEmpty_iff] at h
    simp [h]
  · rw [if_neg h, List.reverse_append]
    simp [List.dropWhile_cons, hc]

/-! ## C4: `prepend_to_path` -/

/-- C4 (counterexample): prepending the empty string to a nonempty `PATH`
is not idempotent — each empty prepend adds one more leading separator
(`:/a`, then `::/a`). -/
theorem prepend_empty_idem_counterexample :
    mapGet (prependToPath false [("PATH", "/a")] "") "PATH" = some ":/a"
    ∧ mapGet (prependToPath false (prependToPath false [("PATH", "/a")] "") "") "PATH"
        = some "::/a"
    ∧ (":/a" : String) ≠ "::/a" := by
  refine ⟨by decide, by decide, by decide⟩

/-- C4 (amended): prepending a directory to `PATH` yields exactly the new
value when `PATH` is unset or empty, and otherwise the new value, the
platform separator, then the previous value, never dropping it; prepending
the empty string repeatedly is idempotent when `PATH` is unset or empty
(but not when it is nonempty, per the counterexample). -/
theorem prepend_to_path_spec (windows : Bool) (m : EnvMap) (v p : String) :
    (mapGet m "PATH" = none → mapGet (prependToPath windows m v) "PATH" = some v)
    ∧ (mapGet m "PATH" = some "" → mapGet (prependToPath windows m v) "PATH" = some v)
    ∧ (mapGet m "PATH" = some p → p ≠ "" →
        mapGet (prependToPath windows m v) "PATH" = some (v ++ pathListSep windows ++ p))
    ∧ (mapGet m "PATH" = some p →
        ∃ lead, mapGet (prependToPath windows m v) "PATH" = some (lead ++ p))
    ∧ ((mapGet m "PATH" = none ∨ mapGet m "PATH" = some "") →
        mapGet (prependToPath windows (prependToPath windows m "") "") "PATH" =
          mapGet (prependToPath windows m "") "PATH") := by
  refine ⟨?_, ?_, ?_, ?_, ?_⟩
  · intro h
    simp [prependToPath, h, mapGet_envInsert_self]
  · intro h
    simp [prependToPath, h, mapGet_envInsert_self]
  · intro h hp
    simp [prependToPath, h, hp, mapGet_envInsert_self]
  · intro h
    by_cases hp : p = ""
    · subst hp
      exact ⟨v, by simp [prependToPath, h, mapGet_envInsert_self]⟩
    · exact ⟨v ++ pathListSep windows, by
        simp [prependToPath, h, hp, mapGet_envInsert_self, String.append_assoc]⟩
  · intro h
    rcases h with h | h
    · simp [prependToPath, h, mapGet_envInsert_self]
    · simp [prependToPath, h, mapGet_envInsert_self]

/-- C4 (witness): the amended statement at a concrete input. -/
theorem prepend_to_path_spec_witness :
    mapGet ([] : EnvMap) "PATH" = none
    ∧ mapGet (prependToPath false [] "/x") "PATH" = some "/x" :=
  ⟨rfl, (prepend_to_path_spec false [] "/x" "").1 rfl⟩

/-! ## C5: `get_script_with_args` -/

/-- C5: the finalized script is the original script, one space, then the
space-joined arguments each wrapped in double quotes with every double
quote and dollar sign escaped by a backslash, the whole result trimmed;
with no extra arguments it is the original script trimmed; and in an
escaped argument no double quote or dollar sign is left without an
immediately preceding backslash. -/
theorem get_script_with_args_spec (script : String) (argv : List String) (a : List Char) :
    getScriptWithArgs script argv =
        String.mk (trimChars (script.data ++ [' '] ++
          List.intercalate [' '] ((argv.map String.data).map quoteArg)))
    ∧ getScriptWithArgs script [] = String.mk (trimChars script.data)
    ∧ quoteArg a = ['"'] ++ escapeArg a ++ ['"']
    ∧ escOk (escapeArg a) = true := by
  refine ⟨?_, ?_, rfl, escOk_escapeArg a⟩
  · show String.mk (trimChars (script.data ++ ' ' :: joinQuotedArgs (argv.map String.data))) = _
    rw [List.append_assoc]
    rfl
  · show String.mk (trimChars (script.data ++ ' ' :: joinQuotedArgs [])) = _
    rw [show script.data ++ ' ' :: joinQuotedArgs [] = script.data ++ [' '] from rfl,
      trimChars_append_ws script.data ' ' (by decide)]

/-! ## C6, C8, C9: the command-resolution layer -/

theorem tableLookup_tableInsert_self (t : CmdTable) (k : String) (v : NpmCmd) :
    tableLookup (tableInsert t k v) k = some v := by
  simp [tableInsert, tableLookup, List.find?_cons]

theorem tableLookup_tableInsert_ne (t : CmdTable) (k k' : String) (v : NpmCmd)
    (h : k ≠ k') : tableLookup (tableInsert t k v) k' = tableLookup t k' := by
  simp [tableInsert, tableLookup, List.find?_cons, h]

theorem tableLookup_insertBinCommands (pkg : NpmPackageId) (bins : List String)
    (acc : CmdTable) (b : String) :
    tableLookup (insertBinCommands pkg bins acc) b =
      if bins.contains b then some (.pkgBin b pkg.nv) else tableLookup acc b := by
  induction bins generalizing acc with
  | nil => simp [insertBinCommands]
  | cons bin rest ih =>
    show tableLookup (insertBinCommands pkg rest (tableInsert acc bin (.pkgBin bin pkg.nv))) b
      = _
    rw [ih]
    by_cases hb : b ∈ rest
    · simp [hb, List.contains_cons]
    · by_cases hbb : b = bin
      · subst hbb
        simp [hb, tableLookup_tableInsert_self, List.contains_cons]
      · rw [tableLookup_tableInsert_ne _ _ _ _ (Ne.symm hbb)]
        simp [hb, List.contains_cons, hbb]

theorem resolveLoop_ok_lookup (m : ManagedResolver)
    (bc : String → Except String (List String)) (b : String) :
    ∀ (pkgs : List NpmPackageId) (acc t : CmdTable),
      resolveLoop m bc pkgs acc = .ok t →
      tableLookup t b =
        match lastExposer m bc b pkgs with
        | some p => some (.pkgBin b p.nv)
        | none => tableLookup acc b := by
  intro pkgs
  induction pkgs with
  | nil =>
    intro acc t h
    simp only [resolveLoop, Except.ok.injEq] at h
    subst h
    rfl
  | cons pkg rest ih =>
    intro acc t h
    rw [resolveLoop] at h
    cases hf : m.resolvePkgFolder pkg with
    | error e => rw [hf] at h; simp [Bind.bind, Except.bind] at h
    | ok folder =>
      rw [hf] at h
      simp only [Bind.bind, Except.bind] at h
      cases hb : bc folder with
      | error e => rw [hb] at h; simp at h
      | ok bins =>
        rw [hb] at h
        replace h : resolveLoop m bc rest (insertBinCommands pkg bins acc) = Except.ok t := h
        have hstep := ih (insertBinCommands pkg bins acc) t h
        rw [hstep, lastExposer]
        cases hlast : lastExposer m bc b rest with
        | some p => rfl
        | none =>
          have hbins : binsOf m bc pkg = bins := by
            simp [binsOf, hf, hb]
          rw [tableLookup_insertBinCommands, hbins]
          by_cases hc : b ∈ bins <;> simp [hc]

theorem resolveLoop_fail (m : ManagedResolver)
    (bc : String → Except String (List String)) (pkg : NpmPackageId)
    (hfail : pkgResolutionFails m bc pkg = true) :
    ∀ (pkgs : List NpmPackageId) (acc : CmdTable),
      pkg ∈ pkgs → isErr (resolveLoop m bc pkgs acc) = true := by
  intro pkgs
  induction pkgs with
  | nil => intro acc h; cases h
  | cons q rest ih =>
    intro acc hmem
    rw [resolveLoop]
    cases hf : m.resolvePkgFolder q with
    | error e => simp [Bind.bind, Except.bind, isErr]
    | ok folder =>
      simp only [Bind.bind, Except.bind]
      cases hb : bc folder with
      | error e => simp [isErr]
      | ok bins =>
        rcases List.mem_cons.mp hmem with rfl | hmem'
        · exfalso
          simp [pkgResolutionFails, hf, hb, isErr] at hfail
        · exact ih (insertBinCommands q bins acc) hmem'

/-- C8: `resolve_npm_commands` registers, for every binary name exposed by
some top-level package, the handler of the last package in iteration order
exposing it (last-write-wins, no error), and a folder-lookup or
binary-discovery failure for any snapshot package makes the whole
resolution fail. -/
theorem resolve_npm_commands_spec (m : ManagedResolver)
    (bc : String → Except String (List String)) (pkg : NpmPackageId)
    (t : CmdTable) (b : String) (p : NpmPackageId) :
    (pkg ∈ m.snapshot → pkgResolutionFails m bc pkg = true →
        isErr (resolveNpmCommands m bc) = true)
    ∧ (resolveNpmCommands m bc = .ok t → lastExposer m bc b m.snapshot = some p →
        tableLookup t b = some (.pkgBin b p.nv)) := by
  constructor
  · intro hmem hfail
    have hloop := resolveLoop_fail m bc pkg hfail m.snapshot [] hmem
    rw [resolveNpmCommands]
    cases hl : resolveLoop m bc m.snapshot [] with
    | error e => simp [Bind.bind, Except.bind, isErr]
    | ok t0 => rw [hl] at hloop; simp [isErr] at hloop
  · intro hok hlast
    rw [resolveNpmCommands] at hok
    cases hl : resolveLoop m bc m.snapshot [] with
    | error e => rw [hl] at hok; simp [Bind.bind, Except.bind] at hok
    | ok t0 =>
      rw [hl] at hok
      simp only [Bind.bind, Except.bind] at hok
      have hlk := resolveLoop_ok_lookup m bc b m.snapshot [] t0 hl
      rw [hlast] at hlk
      by_cases hnpx : (tableLookup t0 "npx").isSome
      · rw [if_pos hnpx] at hok
        simp only [pure, Except.pure, Except.ok.injEq] at hok
        subst hok
        exact hlk
      · rw [if_neg hnpx] at hok
        simp only [pure, Except.pure, Except.ok.injEq] at hok
        subst hok
        by_cases hb : b = "npx"
        · subst hb
          rw [hlk] at hnpx
          simp at hnpx
        · rw [tableLookup_tableInsert_ne _ _ _ _ (Ne.symm hb)]
          exact hlk

/-- C8 (witness): with two packages both exposing `tool`, the registered
handler is the later package's; with failing discovery the resolution
fails. -/
theorem resolve_npm_commands_spec_witness :
    isErr (resolveNpmCommands mW2 bcW2) = true
    ∧ tableLookup [("npx", .npx), ("tool", .pkgBin "tool" ⟨"b", "2.0.0"⟩),
        ("tool", .pkgBin "tool" ⟨"a", "1.0.0"⟩)] "tool"
        = some (.pkgBin "tool" ⟨"b", "2.0.0"⟩) := by
  constructor
  · exact (resolve_npm_commands_spec mW2 bcW2 ⟨⟨"a", "1.0.0"⟩⟩ [] "tool"
      ⟨⟨"a", "1.0.0"⟩⟩).1 (by decide) (by decide)
  · exact (resolve_npm_commands_spec mW1 bcW1 ⟨⟨"a", "1.0.0"⟩⟩
      [("npx", .npx), ("tool", .pkgBin "tool" ⟨"b", "2.0.0"⟩),
        ("tool", .pkgBin "tool" ⟨"a", "1.0.0"⟩)] "tool" ⟨⟨"b", "2.0.0"⟩⟩).2
      rfl (by decide)

/-- C6: the catch-all `npx` handler is registered only when no package
already exposes a binary named `npx`; invoked with no arguments it writes
the missing-command diagnostic and yields exit code 1 without invoking
anything; with an unresolvable first argument it writes the
could-not-resolve diagnostic naming it and yields exit code 1; with a
resolvable first argument that entry is invoked with the remaining
arguments. -/
theorem npx_command_spec (m : ManagedResolver)
    (bc : String → Except String (List String)) (t : CmdTable)
    (r : String → Option NpmCmd) (a : String) (rest : List String) (cmd : NpmCmd) :
    (resolveLoop m bc m.snapshot [] = .ok t → tableLookup t "npx" = none →
        resolveNpmCommands m bc = .ok (tableInsert t "npx" .npx)
        ∧ tableLookup (tableInsert t "npx" .npx) "npx" = some .npx)
    ∧ (resolveLoop m bc m.snapshot [] = .ok t → tableLookup t "npx" = some cmd →
        resolveNpmCommands m bc = .ok t)
    ∧ npxExecute r [] = .errored "npx: missing command" 1
    ∧ (r a = none → npxExecute r (a :: rest) =
        .errored ("npx: could not resolve command " ++ quoteStr ++ a ++ quoteStr) 1)
    ∧ (r a = some cmd → npxExecute r (a :: rest) = .invoked cmd rest) := by
  refine ⟨?_, ?_, rfl, ?_, ?_⟩
  · intro hloop hnpx
    refine ⟨?_, tableLookup_tableInsert_self t "npx" .npx⟩
    rw [resolveNpmCommands, hloop]
    simp [Bind.bind, Except.bind, hnpx, pure, Except.pure]
  · intro hloop hnpx
    rw [resolveNpmCommands, hloop]
    simp [Bind.bind, Except.bind, hnpx, pure, Except.pure]
  · intro h
    simp [npxExecute, h]
  · intro h
    simp [npxExecute, h]

/-- C6 (witness): the npx behavior at concrete inputs. -/
theorem npx_command_spec_witness :
    resolveNpmCommands mW0 bcW0 = .ok [("npx", .npx)]
    ∧ npxExecute rW0 [] = .errored "npx: missing command" 1
    ∧ npxExecute rW0 ["tool", "x"] = .invoked (.pkgBin "tool" ⟨"p", "1.0.0"⟩) ["x"]
    ∧ npxExecute rW0 ["nope"] =
        .errored ("npx: could not resolve command " ++ quoteStr ++ "nope" ++ quoteStr) 1 := by
  have h1 := npx_command_spec mW0 bcW0 [] rW0 "tool" ["x"]
    (.pkgBin "tool" ⟨"p", "1.0.0"⟩)
  have h2 := npx_command_spec mW0 bcW0 [] rW0 "nope" [] .npx
  exact ⟨(h1.1 rfl rfl).1, h1.2.2.1, h1.2.2.2.2 (by decide), h2.2.2.2.1 (by decide)⟩

/-- C9: a package-binary handler invokes the external `deno` executable
with `run -A <spec>` followed by the received arguments unchanged, where
the spec qualifies the binary name only when it differs from the package
name. -/
theorem npm_package_bin_command_spec (nm : String) (nv : PackageNv) (args : List String) :
    (npmPackageBinCommandExecute nm nv args).1 = "deno"
    ∧ (npmPackageBinCommandExecute nm nv args).2.drop 3 = args
    ∧ (nv.name = nm →
        (npmPackageBinCommandExecute nm nv args).2.take 3 =
          ["run", "-A", "npm:" ++ nv.name ++ "@" ++ nv.version])
    ∧ (nv.name ≠ nm →
        (npmPackageBinCommandExecute nm nv args).2.take 3 =
          ["run", "-A", "npm:" ++ nv.name ++ "@" ++ nv.version ++ "/" ++ nm]) := by
  refine ⟨rfl, rfl, ?_, ?_⟩
  · intro h
    simp [npmPackageBinCommandExecute, h, PackageNv.display, String.append_assoc]
  · intro h
    simp [npmPackageBinCommandExecute, h, PackageNv.display, String.append_assoc]

/-- C9 (witness): both spec forms at concrete inputs. -/
theorem npm_package_bin_command_spec_witness :
    (npmPackageBinCommandExecute "p" ⟨"p", "1.0.0"⟩ ["x"]).2.take 3 =
        ["run", "-A", "npm:p@1.0.0"]
    ∧ (npmPackageBinCommandExecute "tool" ⟨"p", "1.0.0"⟩ ["x"]).2.take 3 =
        ["run", "-A", "npm:p@1.0.0/tool"] :=
  ⟨(npm_package_bin_command_spec "p" ⟨"p", "1.0.0"⟩ ["x"]).2.2.1 rfl,
   (npm_package_bin_command_spec "tool" ⟨"p", "1.0.0"⟩ ["x"]).2.2.2 (by decide)⟩

/-! ## Listing lemmas -/

theorem renderEntries_append (l1 l2 : List (Bool × String × String)) :
    renderEntries (l1 ++ l2) = renderEntries l1 ++ renderEntries l2 := by
  induction l1 with
  | nil => rfl
  | cons e rest ih => simp [renderEntries, ih]

theorem renderEntries_config (l : List (String × String)) :
    renderEntries (l.map (fun e => (true, e))) = renderConfigEntries l := by
  induction l with
  | nil => rfl
  | cons e rest ih =>
    cases e
    simp [renderEntries, renderConfigEntries, ih]

theorem renderEntries_manifest (l : List (String × String)) :
    renderEntries (l.map (fun e => (false, e))) = renderManifestEntries l := by
  induction l with
  | nil => rfl
  | cons e rest ih =>
    cases e
    simp [renderEntries, renderManifestEntries, ih]

theorem printAvailableTasks_eq_spec (tc pj : List (String × String)) :
    printAvailableTasks tc pj = taskListingSpec tc pj := by
  cases tc with
  | nil =>
    have hfil : pj.filter (fun e => !(mapGet [] e.1).isSome) = pj := by
      simp [mapGet_nil]
    simp only [printAvailableTasks, taskListingSpec, hfil]
    rw [renderEntries_append, renderEntries_config, renderEntries_manifest]
    cases pj with
    | nil => simp [renderConfigEntries, renderManifestEntries, renderEntries]
    | cons e pj2 => simp [renderConfigEntries]
  | cons thead tc2 =>
    simp only [printAvailableTasks, taskListingSpec]
    rw [renderEntries_append, renderEntries_config, renderEntries_manifest]
    simp [renderConfigEntries]

/-! ## Hook-loop lemmas -/

theorem ctxMapError_error (e : String) (f : String → String) :
    ctxMapError (Except.error e : Except String α) f = .error (f e) := rfl

theorem ctxMapError_ok (a : α) (f : String → String) :
    ctxMapError (Except.ok a : Except String α) f = .ok a := rfl

theorem runHooks_ok_spec (w : World) (pj : List (String × String)) (cwd : String) :
    ∀ (names : List String) (code : Int) (steps : List Step) (builds : Nat),
      runHooks w pj cwd names = .ok (code, steps, builds) →
      steps.map (·.name) =
          (names.filter (fun nm => (mapGet pj nm).isSome)).take steps.length
      ∧ (∀ st ∈ steps.dropLast, st.exitCode ≤ 0)
      ∧ code = (match steps.getLast? with
          | some st => if st.exitCode > 0 then st.exitCode else 0
          | none => 0)
      ∧ ((∀ st ∈ steps, st.exitCode ≤ 0) →
          steps.map (·.name) = names.filter (fun nm => (mapGet pj nm).isSome))
      ∧ builds = steps.length
      ∧ (∀ st ∈ steps, st.envVars = manifestTaskEnvVars w
          ∧ manifestTaskCommands w = .ok st.commands) := by
  intro names
  induction names with
  | nil =>
    intro code steps builds h
    simp only [runHooks, Except.ok.injEq, Prod.mk.injEq] at h
    obtain ⟨hc, hs, hb⟩ := h
    subst hc; subst hs; subst hb
    simp
  | cons taskName rest ih =>
    intro code steps builds h
    simp only [runHooks] at h
    cases hm : mapGet pj taskName with
    | none =>
      rw [hm] at h
      have := ih code steps builds h
      simpa [List.filter_cons, hm] using this
    | some rawScript =>
      rw [hm] at h
      simp only [Bind.bind, Except.bind] at h
      cases hp : w.shellParse (getScriptWithArgs rawScript w.argv) with
      | error e =>
        simp [hp, ctxMapError_error] at h
      | ok u =>
        simp only [hp, ctxMapError_ok] at h
        cases hcmd : manifestTaskCommands w with
        | error e => simp [hcmd] at h
        | ok tbl =>
          simp only [hcmd] at h
          by_cases hexit :
            w.shellExecute (getScriptWithArgs rawScript w.argv) (manifestTaskEnvVars w) cwd tbl > 0
          · rw [if_pos hexit] at h
            simp only [Except.ok.injEq, Prod.mk.injEq] at h
            obtain ⟨hc, hs, hb⟩ := h
            subst hc; subst hs; subst hb
            refine ⟨?_, ?_, ?_, ?_, rfl, ?_⟩
            · simp [List.filter_cons, hm]
            · simp
            · simp [hexit]
            · intro hall
              exfalso
              have := hall _ (List.mem_singleton.mpr rfl)
              simp at this
              omega
            · intro st hst
              rw [List.mem_singleton] at hst
              subst hst
              exact ⟨rfl, rfl⟩
          · rw [if_neg hexit] at h
            cases hr : runHooks w pj cwd rest with
            | error e => simp [hr] at h
            | ok tri =>
              simp only [hr] at h
              obtain ⟨c2, s2, b2⟩ := tri
              simp only [Except.ok.injEq, Prod.mk.injEq] at h
              obtain ⟨hc, hs, hb⟩ := h
              subst hc; subst hs; subst hb
              obtain ⟨ih1, ih2, ih3, ih4, ih5, ih6⟩ := ih c2 s2 b2 hr
              have hle : w.shellExecute (getScriptWithArgs rawScript w.argv)
                  (manifestTaskEnvVars w) cwd tbl ≤ 0 := by omega
              refine ⟨?_, ?_, ?_, ?_, ?_, ?_⟩
              · simp [List.filter_cons, hm, ih1]
              · intro st hst
                cases s2 with
                | nil => simp at hst
                | cons shd stl =>
                  rw [List.dropLast_cons₂] at hst
                  rcases List.mem_cons.mp hst with rfl | hst2
                  · exact hle
                  · exact ih2 st hst2
              · cases s2 with
                | nil =>
                  simp only [List.getLast?_nil] at ih3
                  simp [hexit, ih3]
                | cons shd stl =>
                  rw [List.getLast?_cons_cons]
                  exact ih3
              · intro hall
                have htail : ∀ st ∈ s2, st.exitCode ≤ 0 := by
                  intro st hst
                  exact hall st (List.mem_cons_of_mem _ hst)
                simp [List.filter_cons, hm, ih4 htail]
              · simp [ih5]
              · intro st hst
                rcases List.mem_cons.mp hst with rfl | hst2
                · exact ⟨rfl, rfl⟩
                · exact ⟨(ih6 st hst2).1, hcmd.symm.trans (ih6 st hst2).2⟩

/-! ## Driver branch lemmas -/

theorem executeScript_config (w : World) (tf : TaskFlags) (taskName rawScript : String)
    (out : RunOutcome)
    (htask : tf.task = some taskName)
    (hcfg : mapGet w.tasksConfig taskName = some rawScript)
    (hok : executeScript w tf = .ok out) :
    out.steps.map (·.name) = [taskName]
    ∧ out.steps.map (·.script) = [getScriptWithArgs rawScript w.argv]
    ∧ out.steps.map (·.commands) = [([] : CmdTable)]
    ∧ out.stderrLines = [] := by
  simp only [executeScript, htask, hcfg] at hok
  cases hcf : w.maybeConfigFile with
  | none => simp [hcf] at hok
  | some cf =>
    simp only [hcf] at hok
    by_cases hscheme : cf.scheme = "file"
    · rw [if_pos hscheme] at hok
      cases htc : tf.cwd with
      | some path =>
        simp only [htc, Bind.bind, Except.bind] at hok
        cases hcwd : w.canonicalize path with
        | error e => simp [hcwd] at hok
        | ok cwd =>
          simp only [hcwd] at hok
          cases hp : w.shellParse (getScriptWithArgs rawScript w.argv) with
          | error e => simp [hp, ctxMapError_error] at hok
          | ok u =>
            simp only [hp, ctxMapError_ok, Except.ok.injEq] at hok
            subst hok
            exact ⟨rfl, rfl, rfl, rfl⟩
      | none =>
        simp only [htc, Bind.bind, Except.bind, pure, Except.pure] at hok
        cases hp : w.shellParse (getScriptWithArgs rawScript w.argv) with
        | error e => simp [hp, ctxMapError_error] at hok
        | ok u =>
          simp only [hp, ctxMapError_ok, Except.ok.injEq] at hok
          subst hok
          exact ⟨rfl, rfl, rfl, rfl⟩
    · rw [if_neg hscheme] at hok
      simp at hok

theorem executeScript_manifest (w : World) (tf : TaskFlags) (taskName : String)
    (out : RunOutcome)
    (htask : tf.task = some taskName)
    (hconfig : mapGet w.tasksConfig taskName = none)
    (hpj : (mapGet ((w.maybePackageJson.bind (·.scripts)).getD []) taskName).isSome = true)
    (hok : executeScript w tf = .ok out) :
    ∃ cwd, runHooks w ((w.maybePackageJson.bind (·.scripts)).getD []) cwd
        ["pre" ++ taskName, taskName, "post" ++ taskName]
      = .ok (out.exitCode, out.steps, out.buildCount) ∧ out.stderrLines = [] := by
  simp only [executeScript, htask, hconfig] at hok
  rw [if_pos hpj] at hok
  cases hpkg : w.maybePackageJson with
  | none =>
    rw [hpkg] at hpj
    simp [mapGet_nil] at hpj
  | some pjson =>
    simp only [hpkg] at hok
    cases hm2 : w.managedNpmResolver with
    | some mres =>
      simp only [hm2, Bind.bind, Except.bind] at hok
      cases hinst : mres.ensureTopLevelInstall with
      | error e => simp [hinst] at hok
      | ok u =>
        simp only [hinst] at hok
        cases htc : tf.cwd with
        | some path =>
          simp only [htc] at hok
          cases hcwd : w.canonicalize path with
          | error e => simp [hcwd] at hok
          | ok cwd =>
            simp only [hcwd] at hok
            cases hr : runHooks w (((some pjson).bind (·.scripts)).getD []) cwd
                ["pre" ++ taskName, taskName, "post" ++ taskName] with
            | error e => rw [hr] at hok; simp at hok
            | ok tri =>
              rw [hr] at hok
              obtain ⟨c2, s2, b2⟩ := tri
              simp only [Except.ok.injEq] at hok
              subst hok
              refine ⟨cwd, ?_, rfl⟩
              exact hr
        | none =>
          simp only [htc, pure, Except.pure] at hok
          cases hr : runHooks w (((some pjson).bind (·.scripts)).getD []) (w.parentOf pjson.path)
              ["pre" ++ taskName, taskName, "post" ++ taskName] with
          | error e => rw [hr] at hok; simp at hok
          | ok tri =>
            rw [hr] at hok
            obtain ⟨c2, s2, b2⟩ := tri
            simp only [Except.ok.injEq] at hok
            subst hok
            refine ⟨w.parentOf pjson.path, ?_, rfl⟩
            exact hr
    | none =>
      simp only [hm2, Bind.bind, Except.bind, pure, Except.pure] at hok
      cases htc : tf.cwd with
      | some path =>
        simp only [htc] at hok
        cases hcwd : w.canonicalize path with
        | error e => simp [hcwd] at hok
        | ok cwd =>
          simp only [hcwd] at hok
          cases hr : runHooks w (((some pjson).bind (·.scripts)).getD []) cwd
              ["pre" ++ taskName, taskName, "post" ++ taskName] with
          | error e => rw [hr] at hok; simp at hok
          | ok tri =>
            rw [hr] at hok
            obtain ⟨c2, s2, b2⟩ := tri
            simp only [Except.ok.injEq] at hok
            subst hok
            refine ⟨cwd, ?_, rfl⟩
            exact hr
      | none =>
        simp only [htc] at hok
        cases hr : runHooks w (((some pjson).bind (·.scripts)).getD [])
            (w.parentOf pjson.path)
            ["pre" ++ taskName, taskName, "post" ++ taskName] with
        | error e => rw [hr] at hok; simp at hok
        | ok tri =>
          rw [hr] at hok
          obtain ⟨c2, s2, b2⟩ := tri
          simp only [Except.ok.injEq] at hok
          subst hok
          refine ⟨w.parentOf pjson.path, ?_, rfl⟩
          exact hr

/-! ## C1, C10: configuration-source precedence -/

/-- C1: a task name present in the configuration task map resolves to the
Configuration source: the run result is unchanged under any replacement of
the package manifest (the manifest script map is never consulted), and a
successful run executes exactly one step, named after the task, whose
script is the configuration-sourced script — no manifest script or
pre/post hook runs. -/
theorem config_precedence (w : World) (tf : TaskFlags) (taskName rawScript : String)
    (out : RunOutcome) (pj2 : Option PackageJson)
    (htask : tf.task = some taskName)
    (hcfg : mapGet w.tasksConfig taskName = some rawScript) :
    executeScript { w with maybePackageJson := pj2 } tf = executeScript w tf
    ∧ (executeScript w tf = .ok out →
        out.steps.map (·.name) = [taskName]
        ∧ out.steps.map (·.script) = [getScriptWithArgs rawScript w.argv]) := by
  constructor
  · simp [executeScript, htask, hcfg]
  · intro hok
    exact ⟨(executeScript_config w tf taskName rawScript out htask hcfg hok).1,
      (executeScript_config w tf taskName rawScript out htask hcfg hok).2.1⟩

/-- C1 (witness): with `build` in both sources, replacing the manifest
does not change the run, and the single executed step is the
configuration task. -/
theorem config_precedence_witness :
    executeScript { cw1 with maybePackageJson := none } tf1 = executeScript cw1 tf1
    ∧ out1.steps.map (·.name) = ["build"] := by
  have h := config_precedence cw1 tf1 "build" "echo hi" out1 none rfl rfl
  exact ⟨h.1, (h.2 rfl).1⟩

/-- C10: for a configuration-sourced task, the command table passed to the
shell engine is the empty default table, even when a package manifest with
installed top-level packages exists. -/
theorem config_task_empty_command_table (w : World) (tf : TaskFlags)
    (taskName rawScript : String) (out : RunOutcome)
    (htask : tf.task = some taskName)
    (hcfg : mapGet w.tasksConfig taskName = some rawScript)
    (hok : executeScript w tf = .ok out) :
    out.steps.map (·.commands) = [([] : CmdTable)] :=
  (executeScript_config w tf taskName rawScript out htask hcfg hok).2.2.1

/-- C10 (witness): even with a managed resolver holding installed
packages, the configuration-sourced step gets the empty command table. -/
theorem config_task_empty_command_table_witness :
    cw1.managedNpmResolver.isSome = true
    ∧ out1.steps.map (·.commands) = [([] : CmdTable)] :=
  ⟨rfl, config_task_empty_command_table cw1 tf1 "build" "echo hi" out1 rfl rfl rfl⟩

/-! ## C2: hook sequencing -/

/-- C2 (counterexample): with `build` exiting `-1` — a non-zero exit
code — the run does not stop there: a third step (`postbuild`) still
executes, and the terminal exit code is `0`, not the non-zero `-1`; the
loop (task.rs:132) only stops on strictly positive codes. -/
theorem manifest_nonzero_exit_counterexample :
    (okValue (executeScript cw2 tf2)).map
        (fun o => (o.exitCode, o.steps.map (fun st => (st.name, st.exitCode)))) =
      some (0, [("prebuild", 0), ("build", -1), ("postbuild", 0)])
    ∧ (okValue (executeScript cw2 tf2)).map (fun o => o.steps.length) = some 3
    ∧ (okValue (executeScript cw2 tf2)).map (fun o => o.exitCode) = some 0
    ∧ ((-1 : Int) ≠ 0)
    ∧ ((0 : Int) ≠ -1) :=
  ⟨rfl, rfl, rfl, by decide, by decide⟩

/-- C2 (amended): a manifest-sourced run attempts at most the three names
`pre<task>`, `<task>`, `post<task>` in that order, runs a step only when
its exact name is a manifest key, stops at the first step whose exit code
is strictly positive (not merely non-zero: negative codes do not stop the
sequence), that positive exit code is terminal, and `0` is returned when
no attempted step exits positively.  On runs where the shell engine
returns only nonnegative exit codes this coincides with the original
stop-at-first-non-zero rule: every step before the last then exited with
exactly `0`. -/
theorem manifest_hook_sequence (w : World) (tf : TaskFlags) (taskName : String)
    (out : RunOutcome)
    (htask : tf.task = some taskName)
    (hconfig : mapGet w.tasksConfig taskName = none)
    (hpj : (mapGet ((w.maybePackageJson.bind (·.scripts)).getD []) taskName).isSome = true)
    (hok : executeScript w tf = .ok out) :
    out.steps.map (·.name) =
        ((["pre" ++ taskName, taskName, "post" ++ taskName]).filter
          (fun nm => (mapGet ((w.maybePackageJson.bind (·.scripts)).getD []) nm).isSome)).take
          out.steps.length
    ∧ (∀ st ∈ out.steps.dropLast, st.exitCode ≤ 0)
    ∧ out.exitCode = (match out.steps.getLast? with
        | some st => if st.exitCode > 0 then st.exitCode else 0
        | none => 0)
    ∧ ((∀ st ∈ out.steps, st.exitCode ≤ 0) →
        out.steps.map (·.name) =
          (["pre" ++ taskName, taskName, "post" ++ taskName]).filter
            (fun nm => (mapGet ((w.maybePackageJson.bind (·.scripts)).getD []) nm).isSome))
    ∧ ((∀ st ∈ out.steps, 0 ≤ st.exitCode) →
        ∀ st ∈ out.steps.dropLast, st.exitCode = 0) := by
  obtain ⟨cwd, hr, _⟩ := executeScript_manifest w tf taskName out htask hconfig hpj hok
  obtain ⟨h1, h2, h3, h4, h5, h6⟩ :=
    runHooks_ok_spec w ((w.maybePackageJson.bind (·.scripts)).getD []) cwd
      ["pre" ++ taskName, taskName, "post" ++ taskName]
      out.exitCode out.steps out.buildCount hr
  refine ⟨h1, h2, h3, h4, ?_⟩
  intro hnn st hst
  have hle := h2 st hst
  have hge := hnn st (List.mem_of_mem_dropLast hst)
  omega

/-- C2 (witness): the amended statement at two concrete runs — a
three-hook run that succeeds throughout (all three steps execute, terminal
code 0) and a run whose `build` step exits with the positive code `2`
(`postbuild` is skipped and `2` is terminal). -/
theorem manifest_hook_sequence_witness :
    executeScript cw3 tf2 = .ok out3
    ∧ out3.steps.map (·.name) = ["prebuild", "build", "postbuild"]
    ∧ out3.exitCode = 0
    ∧ executeScript cw4 tf2 = .ok out4
    ∧ out4.steps.map (·.name) = ["prebuild", "build"]
    ∧ out4.exitCode = 2 := by
  have h3 := manifest_hook_sequence cw3 tf2 "build" out3 rfl rfl (by decide) rfl
  have h4 := manifest_hook_sequence cw4 tf2 "build" out4 rfl rfl (by decide) rfl
  exact ⟨rfl, (h3.2.2.2.1 (by decide)).trans (by decide), rfl, rfl,
    h4.1.trans (by decide), rfl⟩

/-! ## C3: per-step environment and command table -/

/-- C3 (counterexample): the command table and environment map are not
built exactly once at the start of a manifest run — they are rebuilt at
every executed hook step (task.rs lines 118-127 are inside the hook
loop): a run with three executed steps performs three builds, not one. -/
theorem built_once_counterexample :
    (okValue (executeScript cw3 tf2)).map (fun o => (o.buildCount, o.steps.length)) =
      some (3, 3)
    ∧ (3 : Nat) ≠ 1 :=
  ⟨rfl, by decide⟩

/-- C3 (amended): the command table and environment map are rebuilt at
each executed hook step, but they are derived deterministically from
inputs fixed before the first step, so every hook step observes exactly
the same environment map and command table as the first step; the number
of builds equals the number of executed steps. -/
theorem manifest_env_table_per_step (w : World) (tf : TaskFlags) (taskName : String)
    (out : RunOutcome)
    (htask : tf.task = some taskName)
    (hconfig : mapGet w.tasksConfig taskName = none)
    (hpj : (mapGet ((w.maybePackageJson.bind (·.scripts)).getD []) taskName).isSome = true)
    (hok : executeScript w tf = .ok out) :
    (∀ st ∈ out.steps, st.envVars = manifestTaskEnvVars w
        ∧ manifestTaskCommands w = .ok st.commands)
    ∧ (∀ st1 ∈ out.steps, ∀ st2 ∈ out.steps,
        st1.envVars = st2.envVars ∧ st1.commands = st2.commands)
    ∧ out.buildCount = out.steps.length := by
  obtain ⟨cwd, hr, _⟩ := executeScript_manifest w tf taskName out htask hconfig hpj hok
  obtain ⟨h1, h2, h3, h4, h5, h6⟩ :=
    runHooks_ok_spec w ((w.maybePackageJson.bind (·.scripts)).getD []) cwd
      ["pre" ++ taskName, taskName, "post" ++ taskName]
      out.exitCode out.steps out.buildCount hr
  refine ⟨h6, ?_, h5⟩
  intro st1 hst1 st2 hst2
  obtain ⟨he1, hc1⟩ := h6 st1 hst1
  obtain ⟨he2, hc2⟩ := h6 st2 hst2
  refine ⟨he1.trans he2.symm, ?_⟩
  have h7 := hc1.symm.trans hc2
  simpa using h7

/-- C3 (witness): the amended statement at the concrete three-hook run. -/
theorem manifest_env_table_per_step_witness :
    executeScript cw3 tf2 = .ok out3
    ∧ out3.buildCount = out3.steps.length := by
  have h := manifest_env_table_per_step cw3 tf2 "build" out3 rfl rfl (by decide) rfl
  exact ⟨rfl, h.2.2⟩

/-! ## C7: the not-found / help listing -/

/-- C7: when the task name is omitted, or found in neither map, the exit
code is 1, no step runs, and the listing (configuration entries first in
insertion order, then manifest entries not already in the task map
annotated as manifest-sourced, or the none-found message when both maps
are empty) is printed to the error stream, preceded by the line
`Task not found: <name>` exactly when a name was supplied but unmatched
(matched runs print no such line). -/
theorem task_not_found_listing (w : World) (tf : TaskFlags) (n : String)
    (out : RunOutcome) :
    (tf.task = none →
        executeScript w tf = .ok ⟨1, [],
          taskListingSpec w.tasksConfig ((w.maybePackageJson.bind (·.scripts)).getD []), 0⟩)
    ∧ (tf.task = some n →
        mapGet w.tasksConfig n = none →
        mapGet ((w.maybePackageJson.bind (·.scripts)).getD []) n = none →
        executeScript w tf = .ok ⟨1, [],
          ("Task not found: " ++ n) ::
            taskListingSpec w.tasksConfig ((w.maybePackageJson.bind (·.scripts)).getD []), 0⟩)
    ∧ (tf.task = some n → executeScript w tf = .ok out →
        ((mapGet w.tasksConfig n).isSome = true
          ∨ (mapGet ((w.maybePackageJson.bind (·.scripts)).getD []) n).isSome = true) →
        out.stderrLines = []) := by
  refine ⟨?_, ?_, ?_⟩
  · intro h
    simp [executeScript, h, printAvailableTasks_eq_spec]
  · intro h h1 h2
    simp [executeScript, h, h1, h2, printAvailableTasks_eq_spec]
  · intro h hok hsome
    rcases hsome with hs | hs
    · obtain ⟨s2, hs2⟩ := Option.isSome_iff_exists.mp hs
      exact (executeScript_config w tf n s2 out h hs2 hok).2.2.2
    · by_cases hc : (mapGet w.tasksConfig n).isSome = true
      · obtain ⟨s2, hs2⟩ := Option.isSome_iff_exists.mp hc
        exact (executeScript_config w tf n s2 out h hs2 hok).2.2.2
      · have hcn : mapGet w.tasksConfig n = none := by
          cases hmm : mapGet w.tasksConfig n
          · rfl
          · rw [hmm] at hc; simp at hc
        obtain ⟨cwd, _, hstderr⟩ := executeScript_manifest w tf n out h hcn hs hok
        exact hstderr

/-- C7 (witness): an unmatched name yields exit 1, the not-found line, and
the annotated listing at a concrete world. -/
theorem task_not_found_listing_witness :
    mapGet cw7.tasksConfig "zzz" = none
    ∧ executeScript cw7 tf7 = .ok ⟨1, [],
        ["Task not found: zzz", "Available tasks:", "- a", "    echo a",
          "- b (package.json)", "    y"], 0⟩ := by
  have h := (task_not_found_listing cw7 tf7 "zzz" ⟨0, [], [], 0⟩).2.1 rfl rfl rfl
  exact ⟨rfl, h.trans (by rfl)⟩

end DenoTask
